import Mathlib

/-!
Shallow embedding of the Hades_FT signal/referral engine (src/app of the
repository) and verification of the frozen claims about it.

Modelling conventions, fixed once for the whole file:
* Timestamps are integers counting minutes; `datetime.utcnow()` becomes an
  explicit `now : Int` argument, assumed frozen for the duration of one call
  (the Python code re-reads the clock inside a call, but all claims are about
  windows measured in minutes, where the sub-call drift is irrelevant).
  `timedelta(minutes = m)` is `m`, `timedelta(days = d)` is `d * 1440`.
* Prices and scores are rationals; Python floats are modelled exactly.
  `round(x, 4)` becomes `round4` below (Python rounds ties to even, Mathlib's
  `round` rounds ties up; no statement in this file evaluates `round` at a
  tie, so the difference is immaterial).
* MongoDB collections become insertion-ordered Lean lists; `find_one(q)` is
  `List.find?` of the query predicate, `insert_one` appends, and
  `update_one(filter, upd)` maps the update over the matching user.  The
  repository's update documents of the shape
  `update_one(f, set-of update_timestamp(u))` (and the variant that combines
  it with counter increments) are modelled by their intent: bump the named
  counters and refresh `updated_at`.
* Environment configuration keeps its shipped defaults: `DEDUP_MINUTES = 10`,
  `TELEGRAM_SIGNAL_COOLDOWN_MINUTES = 15`, `PLAN_DURATION_DAYS = 30`.  The
  admin id list (`config.ADMIN_USER_IDS`, environment supplied) is a field of
  the signal-store state.
-/

/- Batteries marks the arithmetic of `Rat` `@[irreducible]`, which prevents
`decide`-style evaluation of the embedded functions on concrete inputs; the
proofs below evaluate concrete stores, so restore the ordinary transparency
for this file. -/
attribute [local semireducible] Rat.ofScientific Rat.mul Rat.inv Rat.add Rat.sub

/-- Round a rational to the nearest integer (ties up), written with explicit
integer floor division so that it evaluates inside the kernel:
`⌊q + 1/2⌋ = fdiv (2*num + den) (2*den)`. -/
def rat_round (q : ℚ) : Int := Int.fdiv (2 * q.num + (q.den : Int)) (2 * (q.den : Int))

/-- Python `round(x, 4)`: round to four decimal places. -/
def round4 (q : ℚ) : ℚ := (rat_round (q * 10000) : ℚ) / 10000

/-- Python `round(x, 2)`: round to two decimal places. -/
def round2 (q : ℚ) : ℚ := (rat_round (q * 100) : ℚ) / 100

/-- Minutes in a day, for `timedelta(days = d)`. -/
def minutesPerDay : Int := 1440

-- ======================================================================
-- models.py : user documents and pure plan helpers
-- ======================================================================

/-- A user document (`models.new_user`), restricted to the fields read or
written by the functions verified here; fields the embedded code never
consults (username, daily signal counters, activity timestamps other than
`updated_at`) are omitted. -/
structure User where
  user_id : Int
  plan : String
  plan_end : Option Int
  trial_end : Option Int
  referred_by : Option Int
  ref_plus_valid : Int
  ref_premium_valid : Int
  ref_plus_total : Int
  ref_premium_total : Int
  updated_at : Int
  deriving DecidableEq, Repr

/-- `models.is_plan_active`: the plan is active when `plan_end` is set and
`plan_end >= utcnow()`. -/
def is_plan_active (u : User) (now : Int) : Bool :=
  match u.plan_end with
  | none => false
  | some e => now ≤ e

/-- `models.is_trial_active`: the trial is active when `trial_end` is set and
`trial_end >= utcnow()`. -/
def is_trial_active (u : User) (now : Int) : Bool :=
  match u.trial_end with
  | none => false
  | some e => now ≤ e

/-- `plans.has_access`: plan active or trial active. -/
def has_access (u : User) (now : Int) : Bool :=
  is_plan_active u now || is_trial_active u now

/-- `models.activate_plan`: extend `plan_end` by `days` when it is set and in
the future (`plan_end > now`), else start at `now + days`; set the tier and
clear the trial. -/
def activate_plan (u : User) (plan : String) (days : Int) (now : Int) : User :=
  let pe : Int :=
    match u.plan_end with
    | some e => if now < e then e + days * minutesPerDay else now + days * minutesPerDay
    | none => now + days * minutesPerDay
  { u with plan := plan, plan_end := some pe, trial_end := none, updated_at := now }

-- ======================================================================
-- referrals.py / plans.py : referral store and reward cascade
-- ======================================================================

/-- A referral document (`referrals.register_valid_referral`, step 6). -/
structure RefRecord where
  referrer_id : Int
  referred_id : Int
  activated_plan : String
  activated_at : Int
  reward_applied : Bool
  deriving DecidableEq, Repr

/-- The persistent state touched by the referral/reward machinery.  `trace`
is verification instrumentation only: it records, in order, every plan
activation or extension the code performs (one entry per reward action), and
is never read by the embedded code. -/
structure RefDB where
  users : List User
  referrals : List RefRecord
  trace : List (Int × String)
  deriving DecidableEq, Repr

/-- `users_collection().find_one(user_id = uid)`. -/
def find_user (db : RefDB) (uid : Int) : Option User :=
  db.users.find? (fun u => u.user_id == uid)

/-- `users_collection().update_one(user_id = uid, upd)`: apply `f` to every
user matching the id (ids are unique in practice; `update_one` touches at
most the first match, and mapping all matches agrees with it on stores with
unique ids). -/
def upd_user (db : RefDB) (uid : Int) (f : User → User) : RefDB :=
  { db with users := db.users.map (fun u => if u.user_id == uid then f u else u) }

/-- `plans.save_user`: `update_one` that replaces the whole user document. -/
def save_user (db : RefDB) (u : User) : RefDB :=
  upd_user db u.user_id (fun _ => u)

/-- `plans.extend_current_plan`: requires an active plan; pushes `plan_end`
out by `days` (from the current `plan_end` when set, else from now). -/
def extend_current_plan (db : RefDB) (user_id : Int) (days : Int) (now : Int) :
    RefDB × Bool :=
  match find_user db user_id with
  | none => (db, false)
  | some user =>
    if ¬ is_plan_active user now then (db, false)
    else
      let newEnd : Int :=
        match user.plan_end with
        | some e => e + days * minutesPerDay
        | none => now + days * minutesPerDay
      let user' := { user with plan_end := some newEnd, updated_at := now }
      let db1 := save_user db user'
      let db2 := { db1 with trace := db1.trace ++ [(user_id, "extend")] }
      (db2, true)

mutual

/-- `referrals.register_valid_referral`, with a fuel bound on the mutual
recursion `register -> check -> activate -> register` (the Python code
recurses through a runtime import; fuel exhaustion returns failure with the
store unchanged).  Guards, in source order: referred user exists, has a
recorded referrer, is not self-referred, the referrer exists, and no record
for the (referrer, referred) pair exists yet.  On success: insert the record,
bump the referrer's counters for the activated tier, run the reward check. -/
def register_valid_referral : Nat → RefDB → Int → String → Int → RefDB × Bool
  | 0, db, _, _, _ => (db, false)
  | fuel + 1, db, referred_user_id, activated_plan, now =>
    match find_user db referred_user_id with
    | none => (db, false)
    | some referred_user =>
      match referred_user.referred_by with
      | none => (db, false)
      | some referrer_id =>
        if referrer_id == referred_user_id then (db, false)
        else
          match find_user db referrer_id with
          | none => (db, false)
          | some _ =>
            if (db.referrals.find? (fun r =>
                r.referrer_id == referrer_id && r.referred_id == referred_user_id)).isSome
            then (db, false)
            else
              let db1 := { db with referrals := db.referrals ++
                [{ referrer_id := referrer_id, referred_id := referred_user_id,
                   activated_plan := activated_plan, activated_at := now,
                   reward_applied := false }] }
              let db2 :=
                if activated_plan == "plus" then
                  upd_user db1 referrer_id (fun u =>
                    { u with ref_plus_valid := u.ref_plus_valid + 1,
                             ref_plus_total := u.ref_plus_total + 1,
                             updated_at := now })
                else if activated_plan == "premium" then
                  upd_user db1 referrer_id (fun u =>
                    { u with ref_premium_valid := u.ref_premium_valid + 1,
                             ref_premium_total := u.ref_premium_total + 1,
                             updated_at := now })
                else db1
              let db3 := (check_ref_rewards fuel db2 referrer_id now).1
              (db3, true)

/-- `referrals.check_ref_rewards`: no-op unless the referrer exists and
`is_plan_active` holds; then the reward ladder keyed on the referrer's own
tier, premium counters before plus, one branch at most; a fired branch
activates or extends a plan and consumes the threshold from the counter.
When a reward was applied the referrer's `updated_at` is refreshed. -/
def check_ref_rewards : Nat → RefDB → Int → Int → RefDB × Bool
  | 0, db, _, _ => (db, false)
  | fuel + 1, db, referrer_id, now =>
    match find_user db referrer_id with
    | none => (db, false)
    | some referrer =>
      if ¬ is_plan_active referrer now then (db, false)
      else
        let plan := referrer.plan
        let plus_count := referrer.ref_plus_valid
        let premium_count := referrer.ref_premium_valid
        let finish : RefDB → RefDB := fun d =>
          upd_user d referrer_id (fun u => { u with updated_at := now })
        if plan == "free" then
          if premium_count ≥ 5 then
            let r := activate_premium fuel db referrer_id 30 now
            if r.2 then
              let d := upd_user r.1 referrer_id (fun u =>
                { u with ref_premium_valid := u.ref_premium_valid - 5 })
              (finish d, true)
            else (r.1, false)
          else if plus_count ≥ 5 then
            let r := activate_plus fuel db referrer_id 30 now
            if r.2 then
              let d := upd_user r.1 referrer_id (fun u =>
                { u with ref_plus_valid := u.ref_plus_valid - 5 })
              (finish d, true)
            else (r.1, false)
          else (db, false)
        else if plan == "plus" then
          if premium_count ≥ 5 then
            let r := activate_premium fuel db referrer_id 30 now
            if r.2 then
              let d := upd_user r.1 referrer_id (fun u =>
                { u with ref_premium_valid := u.ref_premium_valid - 5 })
              (finish d, true)
            else (r.1, false)
          else if plus_count ≥ 5 then
            let r := extend_current_plan db referrer_id 30 now
            if r.2 then
              let d := upd_user r.1 referrer_id (fun u =>
                { u with ref_plus_valid := u.ref_plus_valid - 5 })
              (finish d, true)
            else (r.1, false)
          else (db, false)
        else if plan == "premium" then
          if premium_count ≥ 5 then
            let r := extend_current_plan db referrer_id 30 now
            if r.2 then
              let d := upd_user r.1 referrer_id (fun u =>
                { u with ref_premium_valid := u.ref_premium_valid - 5 })
              (finish d, true)
            else (r.1, false)
          else if plus_count ≥ 10 then
            let r := extend_current_plan db referrer_id 30 now
            if r.2 then
              let d := upd_user r.1 referrer_id (fun u =>
                { u with ref_plus_valid := u.ref_plus_valid - 10 })
              (finish d, true)
            else (r.1, false)
          else (db, false)
        else (db, false)

/-- `plans.activate_premium`: activate or extend the premium plan, then run
referral registration for the activating user (result swallowed).  The
`trace` entry is the instrumentation record of the plan activation. -/
def activate_premium : Nat → RefDB → Int → Int → Int → RefDB × Bool
  | 0, db, _, _, _ => (db, false)
  | fuel + 1, db, user_id, days, now =>
    match find_user db user_id with
    | none => (db, false)
    | some user =>
      let user := activate_plan user "premium" days now
      let db1 := save_user db user
      let db2 := { db1 with trace := db1.trace ++ [(user_id, "activate premium")] }
      let db3 := (register_valid_referral fuel db2 user_id "premium" now).1
      (db3, true)

/-- `plans.activate_plus`: activate or extend the plus plan, then run
referral registration for the activating user (result swallowed). -/
def activate_plus : Nat → RefDB → Int → Int → Int → RefDB × Bool
  | 0, db, _, _, _ => (db, false)
  | fuel + 1, db, user_id, days, now =>
    match find_user db user_id with
    | none => (db, false)
    | some user =>
      let user := activate_plan user "plus" days now
      let db1 := save_user db user
      let db2 := { db1 with trace := db1.trace ++ [(user_id, "activate plus")] }
      let db3 := (register_valid_referral fuel db2 user_id "plus" now).1
      (db3, true)

end


lemma upd_user_referrals (db : RefDB) (uid : Int) (f : User → User) :
    (upd_user db uid f).referrals = db.referrals := rfl

lemma extend_referrals (db : RefDB) (uid days now : Int) :
    (extend_current_plan db uid days now).1.referrals = db.referrals := by
  unfold extend_current_plan
  cases find_user db uid with
  | none => rfl
  | some u => dsimp only; split <;> rfl

theorem refs_grow (fuel : Nat) :
    (∀ db uid plan now r, r ∈ db.referrals →
      r ∈ (register_valid_referral fuel db uid plan now).1.referrals) ∧
    (∀ db rid now r, r ∈ db.referrals →
      r ∈ (check_ref_rewards fuel db rid now).1.referrals) ∧
    (∀ db uid days now r, r ∈ db.referrals →
      r ∈ (activate_premium fuel db uid days now).1.referrals) ∧
    (∀ db uid days now r, r ∈ db.referrals →
      r ∈ (activate_plus fuel db uid days now).1.referrals) := by
  induction fuel with
  | zero =>
    refine ⟨?_, ?_, ?_, ?_⟩
    · intro db uid plan now r hr
      simpa only [register_valid_referral] using hr
    · intro db rid now r hr
      simpa only [check_ref_rewards] using hr
    · intro db uid days now r hr
      simpa only [activate_premium] using hr
    · intro db uid days now r hr
      simpa only [activate_plus] using hr
  | succ n ih =>
    obtain ⟨ihr, ihc, ihp, ihl⟩ := ih
    refine ⟨?_, ?_, ?_, ?_⟩
    · intro db uid plan now r hr
      simp only [register_valid_referral]
      repeat' split
      all_goals dsimp only [upd_user]
      all_goals
        first
          | exact hr
          | (apply ihc
             dsimp only [upd_user]
             exact List.mem_append_left _ hr)
    · intro db rid now r hr
      simp only [check_ref_rewards]
      repeat' split
      all_goals dsimp only [upd_user]
      all_goals
        first
          | exact hr
          | (apply ihp _ _ _ _ r hr)
          | (apply ihl _ _ _ _ r hr)
          | (rw [extend_referrals]; exact hr)
    · intro db uid days now r hr
      simp only [activate_premium]
      repeat' split
      all_goals dsimp only [upd_user, save_user]
      all_goals
        first
          | exact hr
          | (apply ihr
             dsimp only [upd_user, save_user]
             exact hr)
    · intro db uid days now r hr
      simp only [activate_plus]
      repeat' split
      all_goals dsimp only [upd_user, save_user]
      all_goals
        first
          | exact hr
          | (apply ihr
             dsimp only [upd_user, save_user]
             exact hr)

/-- The identity-and-referrer projection of a user document; every operation
of the cascade preserves it for every stored user. -/
def keyOf (u : User) : Int × Option Int := (u.user_id, u.referred_by)

lemma upd_keep (db : RefDB) (uid : Int) (f : User → User)
    (hf : ∀ u, keyOf (f u) = keyOf u) :
    (upd_user db uid f).users.map keyOf = db.users.map keyOf := by
  simp only [upd_user, List.map_map]
  refine List.map_congr_left ?_
  intro u _
  by_cases h : (u.user_id == uid) = true <;> simp [Function.comp, h, hf u]

lemma shape_nodup {d d' : RefDB}
    (h : d'.users.map keyOf = d.users.map keyOf)
    (hnd : (d.users.map User.user_id).Nodup) :
    (d'.users.map User.user_id).Nodup := by
  have e : ∀ (l : List User), l.map User.user_id = (l.map keyOf).map Prod.fst := by
    intro l; simp [List.map_map, keyOf, Function.comp]
  rw [e, h, ← e]
  exact hnd

lemma save_user_shape (db : RefDB) (uid : Int) (u0 user : User)
    (hnd : (db.users.map User.user_id).Nodup)
    (hfind : find_user db uid = some u0)
    (hkey : keyOf user = keyOf u0) :
    (save_user db user).users.map keyOf = db.users.map keyOf := by
  have hmem : u0 ∈ db.users := List.mem_of_find?_eq_some hfind
  simp only [save_user, upd_user, List.map_map]
  refine List.map_congr_left ?_
  intro v hv
  by_cases h : (v.user_id == user.user_id) = true
  · have hv0 : v = u0 := by
      refine List.inj_on_of_nodup_map hnd hv hmem ?_
      have h1 : v.user_id = user.user_id := by simpa using h
      have h2 : user.user_id = u0.user_id := congrArg Prod.fst hkey
      exact h1.trans h2
    have h3 : keyOf user = keyOf v := by rw [hv0]; exact hkey
    simp only [Function.comp, h, if_true]
    exact h3.symm ▸ rfl
  · simp [Function.comp, h]

lemma extend_shape (db : RefDB) (uid days now : Int)
    (hnd : (db.users.map User.user_id).Nodup) :
    (extend_current_plan db uid days now).1.users.map keyOf = db.users.map keyOf := by
  unfold extend_current_plan
  cases hfind : find_user db uid with
  | none => rfl
  | some u =>
    dsimp only
    split
    · rfl
    · exact save_user_shape db uid u _ hnd hfind rfl

/-- Every operation of the referral cascade preserves which users exist and
who referred them (on stores with unique user ids). -/
theorem shape_grow (fuel : Nat) :
    (∀ db uid plan now, (db.users.map User.user_id).Nodup →
      (register_valid_referral fuel db uid plan now).1.users.map keyOf = db.users.map keyOf) ∧
    (∀ db rid now, (db.users.map User.user_id).Nodup →
      (check_ref_rewards fuel db rid now).1.users.map keyOf = db.users.map keyOf) ∧
    (∀ db uid days now, (db.users.map User.user_id).Nodup →
      (activate_premium fuel db uid days now).1.users.map keyOf = db.users.map keyOf) ∧
    (∀ db uid days now, (db.users.map User.user_id).Nodup →
      (activate_plus fuel db uid days now).1.users.map keyOf = db.users.map keyOf) := by
  induction fuel with
  | zero =>
    refine ⟨?_, ?_, ?_, ?_⟩
    · intro db uid plan now _
      simp only [register_valid_referral]
    · intro db rid now _
      simp only [check_ref_rewards]
    · intro db uid days now _
      simp only [activate_premium]
    · intro db uid days now _
      simp only [activate_plus]
  | succ n ih =>
    obtain ⟨ihr, ihc, ihp, ihl⟩ := ih
    refine ⟨?_, ?_, ?_, ?_⟩
    · intro db uid plan now hnd
      simp only [register_valid_referral]
      repeat' split
      all_goals dsimp only
      all_goals
        refine Eq.trans (ihc _ _ _ (shape_nodup ?_ hnd)) ?_ <;>
          first
            | exact Eq.trans (upd_keep _ _ _ (fun u => rfl)) rfl
            | rfl
    · intro db rid now hnd
      simp only [check_ref_rewards]
      repeat' split
      all_goals dsimp only
      all_goals
        first
          | exact Eq.trans (upd_keep _ _ _ (fun u => rfl))
              (Eq.trans (upd_keep _ _ _ (fun u => rfl)) (ihp _ _ _ _ hnd))
          | exact Eq.trans (upd_keep _ _ _ (fun u => rfl))
              (Eq.trans (upd_keep _ _ _ (fun u => rfl)) (ihl _ _ _ _ hnd))
          | exact Eq.trans (upd_keep _ _ _ (fun u => rfl))
              (Eq.trans (upd_keep _ _ _ (fun u => rfl)) (extend_shape _ _ _ _ hnd))
          | exact ihp _ _ _ _ hnd
          | exact ihl _ _ _ _ hnd
          | exact extend_shape _ _ _ _ hnd
    · intro db uid days now hnd
      simp only [activate_premium]
      cases hfind : find_user db uid with
      | none => rfl
      | some u0 =>
        dsimp only
        have h1 : (save_user db (activate_plan u0 "premium" days now)).users.map keyOf
            = db.users.map keyOf :=
          save_user_shape db uid u0 _ hnd hfind rfl
        refine Eq.trans (ihr _ _ _ _ (shape_nodup ?_ hnd)) ?_ <;> exact h1
    · intro db uid days now hnd
      simp only [activate_plus]
      cases hfind : find_user db uid with
      | none => rfl
      | some u0 =>
        dsimp only
        have h1 : (save_user db (activate_plan u0 "plus" days now)).users.map keyOf
            = db.users.map keyOf :=
          save_user_shape db uid u0 _ hnd hfind rfl
        refine Eq.trans (ihr _ _ _ _ (shape_nodup ?_ hnd)) ?_ <;> exact h1

lemma extend_trace_len (db : RefDB) (uid days now : Int) :
    (extend_current_plan db uid days now).1.trace.length ≤ db.trace.length + 1 := by
  unfold extend_current_plan
  cases find_user db uid with
  | none => simp
  | some u =>
    dsimp only
    split
    · simp
    · simp [save_user, upd_user]

lemma ext_lift (db : RefDB) (uid days now : Int) :
    (extend_current_plan db uid days now).1.trace.length + db.referrals.length ≤
      db.trace.length + (extend_current_plan db uid days now).1.referrals.length + 1 := by
  have h1 := extend_trace_len db uid days now
  have h2 := extend_referrals db uid days now
  rw [h2]
  omega

lemma chk_lift (n : Nat) (rid now : Int) (db2 : RefDB) (dbR : List RefRecord)
    (dbT : List (Int × String))
    (ih : (check_ref_rewards n db2 rid now).1.trace.length + db2.referrals.length ≤
      db2.trace.length + (check_ref_rewards n db2 rid now).1.referrals.length + 1)
    (h1 : db2.referrals.length = dbR.length + 1)
    (h2 : db2.trace.length = dbT.length) :
    (check_ref_rewards n db2 rid now).1.trace.length + dbR.length ≤
      dbT.length + (check_ref_rewards n db2 rid now).1.referrals.length := by omega

lemma reg_lift (n : Nat) (uid : Int) (p : String) (now : Int) (db2 : RefDB)
    (dbR : List RefRecord) (dbT : List (Int × String))
    (ih : (register_valid_referral n db2 uid p now).1.trace.length + db2.referrals.length ≤
      db2.trace.length + (register_valid_referral n db2 uid p now).1.referrals.length)
    (h1 : db2.referrals.length = dbR.length)
    (h2 : db2.trace.length = dbT.length + 1) :
    (register_valid_referral n db2 uid p now).1.trace.length + dbR.length ≤
      dbT.length + (register_valid_referral n db2 uid p now).1.referrals.length + 1 := by omega

/-- Reward-action accounting: one call of any cascade operation appends at
most one trace entry (reward action) per referral record it inserts, plus one
for the operation itself in the case of the reward operations. -/
theorem trace_bound (fuel : Nat) :
    (∀ db uid plan now,
      (register_valid_referral fuel db uid plan now).1.trace.length + db.referrals.length ≤
        db.trace.length + (register_valid_referral fuel db uid plan now).1.referrals.length) ∧
    (∀ db rid now,
      (check_ref_rewards fuel db rid now).1.trace.length + db.referrals.length ≤
        db.trace.length + (check_ref_rewards fuel db rid now).1.referrals.length + 1) ∧
    (∀ db uid days now,
      (activate_premium fuel db uid days now).1.trace.length + db.referrals.length ≤
        db.trace.length + (activate_premium fuel db uid days now).1.referrals.length + 1) ∧
    (∀ db uid days now,
      (activate_plus fuel db uid days now).1.trace.length + db.referrals.length ≤
        db.trace.length + (activate_plus fuel db uid days now).1.referrals.length + 1) := by
  induction fuel with
  | zero =>
    refine ⟨?_, ?_, ?_, ?_⟩
    · intro db uid plan now
      simp [register_valid_referral]
    · intro db rid now
      simp [check_ref_rewards]
    · intro db uid days now
      simp [activate_premium]
    · intro db uid days now
      simp [activate_plus]
  | succ n ih =>
    obtain ⟨ihr, ihc, ihp, ihl⟩ := ih
    refine ⟨?_, ?_, ?_, ?_⟩
    · intro db uid plan now
      simp only [register_valid_referral]
      repeat' split
      all_goals dsimp only
      all_goals
        first
          | omega
          | exact chk_lift n _ _ _ db.referrals db.trace (ihc _ _ _)
              (by simp [upd_user]) (by simp [upd_user])
    · intro db rid now
      simp only [check_ref_rewards]
      repeat' split
      all_goals dsimp only [upd_user]
      all_goals
        first
          | omega
          | exact ihp _ _ _ _
          | exact ihl _ _ _ _
          | exact ext_lift _ _ _ _
    · intro db uid days now
      simp only [activate_premium]
      repeat' split
      all_goals dsimp only
      all_goals
        first
          | omega
          | exact reg_lift n _ _ _ _ db.referrals db.trace (ihr _ _ _ _)
              (by simp [save_user, upd_user]) (by simp [save_user, upd_user])
    · intro db uid days now
      simp only [activate_plus]
      repeat' split
      all_goals dsimp only
      all_goals
        first
          | omega
          | exact reg_lift n _ _ _ _ db.referrals db.trace (ihr _ _ _ _)
              (by simp [save_user, upd_user]) (by simp [save_user, upd_user])

/-- The conjunction of guards under which `register_valid_referral` proceeds:
referred user on record with a referrer, not self-referred, referrer exists,
and the (referrer, referred) pair not yet registered. -/
def RegisterOK (db : RefDB) (uid : Int) : Prop :=
  ∃ ru rid, find_user db uid = some ru ∧ ru.referred_by = some rid ∧ rid ≠ uid ∧
    (find_user db rid).isSome = true ∧
    ∀ rec ∈ db.referrals, ¬(rec.referrer_id = rid ∧ rec.referred_id = uid)

lemma register_guard_noop (fuel : Nat) (db : RefDB) (uid : Int) (plan : String)
    (now : Int) (h : ¬ RegisterOK db uid) :
    register_valid_referral fuel db uid plan now = (db, false) := by
  cases fuel with
  | zero => simp [register_valid_referral]
  | succ n =>
    simp only [register_valid_referral]
    cases hfind : find_user db uid with
    | none => rfl
    | some ru =>
      dsimp only
      cases hrb : ru.referred_by with
      | none => rfl
      | some rid =>
        dsimp only
        by_cases hself : (rid == uid) = true
        · simp [hself]
        · simp only [hself, Bool.false_eq_true, if_false]
          cases hrf : find_user db rid with
          | none => rfl
          | some rr =>
            dsimp only
            by_cases hpair : (db.referrals.find? (fun r =>
                r.referrer_id == rid && r.referred_id == uid)).isSome = true
            · simp [hpair]
            · exfalso
              apply h
              refine ⟨ru, rid, hfind, hrb, ?_, ?_, ?_⟩
              · intro he
                exact hself (by simp [he])
              · rw [hrf]; rfl
              · intro rec hmem hrr
                apply hpair
                refine List.find?_isSome.mpr ⟨rec, hmem, ?_⟩
                simp [hrr.1, hrr.2]

lemma register_true_elim (fuel : Nat) (db : RefDB) (uid : Int) (plan : String)
    (now : Int) (db' : RefDB)
    (h : register_valid_referral fuel db uid plan now = (db', true)) :
    ∃ ru rid, find_user db uid = some ru ∧ ru.referred_by = some rid ∧
      ∃ rec ∈ db'.referrals, rec.referrer_id = rid ∧ rec.referred_id = uid := by
  cases fuel with
  | zero => simp [register_valid_referral] at h
  | succ n =>
    simp only [register_valid_referral] at h
    cases hfind : find_user db uid with
    | none => rw [hfind] at h; simp at h
    | some ru =>
      rw [hfind] at h
      dsimp only at h
      cases hrb : ru.referred_by with
      | none => rw [hrb] at h; simp at h
      | some rid =>
        rw [hrb] at h
        dsimp only at h
        by_cases hself : (rid == uid) = true
        · simp [hself] at h
        · simp only [hself, Bool.false_eq_true, if_false] at h
          cases hrf : find_user db rid with
          | none => rw [hrf] at h; simp at h
          | some rr =>
            rw [hrf] at h
            dsimp only at h
            by_cases hpair : (db.referrals.find? (fun r =>
                r.referrer_id == rid && r.referred_id == uid)).isSome = true
            · simp [hpair] at h
            · simp only [hpair, if_false, Bool.false_eq_true] at h
              rw [Prod.mk.injEq] at h
              obtain ⟨h1, -⟩ := h
              refine ⟨ru, rid, rfl, hrb, ?_⟩
              refine ⟨{ referrer_id := rid, referred_id := uid, activated_plan := plan,
                        activated_at := now, reward_applied := false }, ?_, rfl, rfl⟩
              rw [← h1]
              apply (refs_grow n).2.1
              split
              · simp [upd_user]
              · split
                · simp [upd_user]
                · simp

lemma find?_keyOf : ∀ (l' l : List User), l'.map keyOf = l.map keyOf → ∀ x : Int,
    (l'.find? (fun u => u.user_id == x)).map keyOf
      = (l.find? (fun u => u.user_id == x)).map keyOf := by
  intro l'
  induction l' with
  | nil =>
    intro l h x
    cases l with
    | nil => rfl
    | cons a t => simp at h
  | cons a' t' ih =>
    intro l h x
    cases l with
    | nil => simp at h
    | cons a t =>
      simp only [List.map_cons, List.cons.injEq] at h
      obtain ⟨hk, ht⟩ := h
      have hid : a'.user_id = a.user_id := congrArg Prod.fst hk
      by_cases hx : (a.user_id == x) = true
      · have hx' : (a'.user_id == x) = true := by rw [hid]; exact hx
        simp [List.find?, hx, hx', hk]
      · have hx' : ¬ (a'.user_id == x) = true := by rw [hid]; exact hx
        simp only [List.find?, hx, hx']
        simp only [Bool.false_eq_true, if_false] at *
        exact ih t ht x

lemma register_again_noop (fuel fuel' : Nat) (db : RefDB) (uid : Int)
    (plan plan' : String) (now now' : Int)
    (hnd : (db.users.map User.user_id).Nodup)
    (h : (register_valid_referral fuel db uid plan now).2 = true) :
    register_valid_referral fuel' (register_valid_referral fuel db uid plan now).1
      uid plan' now' = ((register_valid_referral fuel db uid plan now).1, false) := by
  obtain ⟨ru, rid, hfind, hrb, rec, hrecmem, hrr, hrd⟩ :=
    register_true_elim fuel db uid plan now
      (register_valid_referral fuel db uid plan now).1
      (by rw [← h])
  have hshape : (register_valid_referral fuel db uid plan now).1.users.map keyOf
      = db.users.map keyOf := (shape_grow fuel).1 db uid plan now hnd
  set db' := (register_valid_referral fuel db uid plan now).1 with hdb'
  have hfind' : (find_user db' uid).map keyOf = some (keyOf ru) := by
    have := find?_keyOf db'.users db.users hshape uid
    simp only [find_user] at *
    rw [this, hfind]
    rfl
  cases fuel' with
  | zero => simp [register_valid_referral]
  | succ n =>
    simp only [register_valid_referral]
    cases hf2 : find_user db' uid with
    | none => rfl
    | some ru' =>
      dsimp only
      have hk : keyOf ru' = keyOf ru := by
        rw [hf2] at hfind'
        simpa using hfind'
      cases hrb2 : ru'.referred_by with
      | none =>
        exfalso
        have : ru'.referred_by = some rid := (congrArg Prod.snd hk).trans (by simp [keyOf, hrb])
        rw [hrb2] at this
        exact (Option.noConfusion this)
      | some rid2 =>
        have hrid2 : rid2 = rid := by
          have h5 : ru'.referred_by = some rid := (congrArg Prod.snd hk).trans (by simp [keyOf, hrb])
          rw [hrb2] at h5
          exact Option.some.inj h5
        have hrr2 : rec.referrer_id = rid2 := by rw [hrid2]; exact hrr
        dsimp only
        by_cases hself : (rid2 == uid) = true
        · simp [hself]
        · simp only [hself, Bool.false_eq_true, if_false]
          cases hrf : find_user db' rid2 with
          | none => rfl
          | some rr =>
            dsimp only
            have hpair : (db'.referrals.find? (fun r =>
                r.referrer_id == rid2 && r.referred_id == uid)).isSome = true := by
              refine List.find?_isSome.mpr ⟨rec, hrecmem, ?_⟩
              simp [hrr2, hrd]
            simp [hpair]

/-- C2: the claim says a free-tier referrer with premium_valid = 5 is upgraded
to premium by CheckRewards (and 7 leaves a surplus of 2).  The code disagrees:
`check_ref_rewards` requires `is_plan_active(referrer)`, which is false for
every free-tier user (their `plan_end` is unset), so the check is a no-op
returning failure and the whole free-tier row of the reward ladder is
unreachable — even while the referrer's trial is still active. -/
theorem C2_free_tier_reward_not_applied :
    (check_ref_rewards 5
        ⟨[⟨2, "free", none, some 10000, none, 0, 5, 0, 5, 0⟩], [], []⟩ 2 0
      = (⟨[⟨2, "free", none, some 10000, none, 0, 5, 0, 5, 0⟩], [], []⟩, false)) ∧
    (check_ref_rewards 5
        ⟨[⟨2, "free", none, some 10000, none, 0, 7, 0, 7, 0⟩], [], []⟩ 2 0
      = (⟨[⟨2, "free", none, some 10000, none, 0, 7, 0, 7, 0⟩], [], []⟩, false)) ∧
    is_plan_active ⟨2, "free", none, some 10000, none, 0, 5, 0, 5, 0⟩ 0 = false ∧
    is_trial_active ⟨2, "free", none, some 10000, none, 0, 5, 0, 5, 0⟩ 0 = true := by
  refine ⟨by decide, by decide, by decide, by decide⟩

/-- C4 counterexample: a single RegisterReferral call that applies TWO reward
actions — the referrer (user 2) is activated to premium, and that activation
re-enters registration for user 2, rewarding user 2's own referrer (user 3)
with a plan extension.  This refutes the claim that at most one reward action
is applied in total across all accounts per RegisterReferral call. -/
theorem C4_counterexample :
    (register_valid_referral 10
        ⟨[⟨1, "free", none, none, some 2, 0, 0, 0, 0, 0⟩,
          ⟨2, "plus", some 100000, none, some 3, 0, 4, 0, 4, 0⟩,
          ⟨3, "premium", some 100000, none, none, 0, 4, 0, 4, 0⟩], [], []⟩
        1 "premium" 0).1.trace = [(2, "activate premium"), (3, "extend")] ∧
    (register_valid_referral 10
        ⟨[⟨1, "free", none, none, some 2, 0, 0, 0, 0, 0⟩,
          ⟨2, "plus", some 100000, none, some 3, 0, 4, 0, 4, 0⟩,
          ⟨3, "premium", some 100000, none, none, 0, 4, 0, 4, 0⟩], [], []⟩
        1 "premium" 0).2 = true := by
  refine ⟨by decide, by decide⟩

/-- C4 amended: one RegisterReferral call applies at most one reward action
per ReferralRecord it inserts (the trace records reward actions); the cascade
is bounded by the records it creates, but it is not limited to a single
reward across all accounts. -/
theorem C4_reward_bound (fuel : Nat) (db : RefDB) (uid : Int) (plan : String)
    (now : Int) :
    (register_valid_referral fuel db uid plan now).1.trace.length
        + db.referrals.length ≤
      db.trace.length
        + (register_valid_referral fuel db uid plan now).1.referrals.length :=
  (trace_bound fuel).1 db uid plan now

/-- C6: RegisterReferral is a no-op returning failure unless the referred
subscriber exists with a recorded referrer, the referrer exists and is not
the referred subscriber, and no ReferralRecord for the exact pair exists;
and after a successful call, any repeated call for the same referred
subscriber is a no-op returning failure (so the referrer's counters are
incremented at most once per pair). -/
theorem C6_register_guard :
    (∀ fuel db uid plan now, ¬ RegisterOK db uid →
      register_valid_referral fuel db uid plan now = (db, false)) ∧
    (∀ fuel fuel' db uid plan plan' now now',
      (db.users.map User.user_id).Nodup →
      (register_valid_referral fuel db uid plan now).2 = true →
      register_valid_referral fuel' (register_valid_referral fuel db uid plan now).1
          uid plan' now'
        = ((register_valid_referral fuel db uid plan now).1, false)) :=
  ⟨register_guard_noop, register_again_noop⟩

/-- C6 witness: the guard theorem applied at concrete stores — an empty store
(no referred user) rejects, and a successful registration followed by a
repeat of the same call leaves the store unchanged and fails. -/
theorem C6_register_guard_witness :
    register_valid_referral 3 ⟨[], [], []⟩ 1 "plus" 0 = (⟨[], [], []⟩, false) ∧
    register_valid_referral 3
        (register_valid_referral 3
          ⟨[⟨1, "free", none, none, some 2, 0, 0, 0, 0, 0⟩,
            ⟨2, "free", none, none, none, 0, 0, 0, 0, 0⟩], [], []⟩ 1 "plus" 0).1
        1 "plus" 0
      = ((register_valid_referral 3
          ⟨[⟨1, "free", none, none, some 2, 0, 0, 0, 0, 0⟩,
            ⟨2, "free", none, none, none, 0, 0, 0, 0, 0⟩], [], []⟩ 1 "plus" 0).1,
         false) :=
  ⟨C6_register_guard.1 3 ⟨[], [], []⟩ 1 "plus" 0
      (fun hok => by
        rcases hok with ⟨ru, rid, hf, -⟩
        simp [find_user] at hf),
   C6_register_guard.2 3 3 _ 1 "plus" "plus" 0 0 (by decide) (by decide)⟩

-- ======================================================================
-- signals.py / notifier.py : base signals, per-subscriber derivation
-- ======================================================================

/-- `signals.DEDUP_MINUTES` (environment default "10"). -/
def dedup_minutes : Int := 10

/-- `signals.TELEGRAM_SIGNAL_COOLDOWN_MINUTES`. -/
def telegram_cooldown_minutes : Int := 15

/-- `config.is_admin`: membership in the environment-supplied admin id list. -/
def is_admin (admins : List Int) (user_id : Int) : Bool :=
  admins.contains user_id

/-- Python `str.upper`, written over the character list. -/
def py_upper (s : String) : String :=
  ⟨s.data.map Char.toUpper⟩

/-- `signals.TIMEFRAME_TO_MINUTES.get(tf.upper(), 0)`. -/
def timeframe_minutes (tf : String) : Int :=
  if py_upper tf == "5M" then 5
  else if py_upper tf == "15M" then 15
  else if py_upper tf == "1H" then 60
  else 0

/-- `signals.calculate_signal_validity`: the largest mapped timeframe length,
or 15 when the timeframe list is empty. -/
def calculate_signal_validity (timeframes : List String) : Int :=
  match timeframes.map timeframe_minutes with
  | [] => 15
  | m :: ms => ms.foldl max m

/-- `signals.calculate_entry_zone`: the rounded price band entry*(1 ± pct). -/
def calculate_entry_zone (entry : ℚ) (pct : ℚ) : ℚ × ℚ :=
  (round4 (entry * (1 - pct)), round4 (entry * (1 + pct)))

/-- A base signal document: the record persisted by
`signals.create_base_signal` (the Mongo ObjectId is modelled by the counter
`oid`; the constant leverage-label dictionary is omitted). -/
structure BaseSignal where
  oid : Nat
  symbol : String
  direction : String
  entry_price : ℚ
  stop_loss : ℚ
  take_profits : List ℚ
  timeframes : List String
  visibility : String
  score : Option ℚ
  components : Option (List (String × ℚ))
  created_at : Int
  valid_until : Int
  telegram_valid_until : Int
  entry_zone_low : ℚ
  entry_zone_high : ℚ
  est_min : Int
  est_max : Int
  deriving DecidableEq, Repr

/-- Stop-loss and take-profit levels of one risk profile of a derived
subscriber signal. -/
structure ProfileLevels where
  stop_loss : ℚ
  take_profits : List ℚ
  deriving DecidableEq, Repr

/-- A subscriber signal document (`signals.generate_user_signal`); the three
risk profiles are the fixed keys of `LEVERAGE_PROFILES` in iteration order,
and `fingerprint` models `secrets.token_hex(4)` as a fresh counter draw. -/
structure UserSignal where
  user_id : Int
  signal_id : Nat
  symbol : String
  direction : String
  entry_price : ℚ
  entry_zone_low : ℚ
  entry_zone_high : ℚ
  conservador : ProfileLevels
  moderado : ProfileLevels
  agresivo : ProfileLevels
  timeframes : List String
  created_at : Int
  valid_until : Int
  telegram_valid_until : Int
  fingerprint : Nat
  visibility : String
  deriving DecidableEq, Repr

/-- The persistent state touched by the signal pipeline: the base-signal and
subscriber-signal collections, the user collection, the admin id list from
the environment, and counters supplying fresh ObjectIds and fingerprints. -/
structure SigDB where
  signals : List BaseSignal
  user_signals : List UserSignal
  users : List User
  admins : List Int
  next_id : Nat
  next_fingerprint : Nat
  deriving DecidableEq, Repr

/-- `signals.telegram_signal_blocked`: some base signal was created within
the cooldown window (restricted to one symbol when given). -/
def telegram_signal_blocked (db : SigDB) (symbol : Option String) (now : Int) : Bool :=
  (db.signals.find? (fun s =>
    decide (now - telegram_cooldown_minutes ≤ s.created_at) &&
    (match symbol with
     | none => true
     | some sym => s.symbol == sym))).isSome

/-- `scanner.recent_duplicate_exists` (same query as the identically named
helper in signals.py): a base signal with the same (symbol, direction,
visibility) created within the dedup window. -/
def recent_duplicate_exists (db : SigDB) (symbol direction visibility : String)
    (now : Int) : Bool :=
  (db.signals.find? (fun s =>
    s.symbol == symbol && s.direction == direction && s.visibility == visibility &&
    decide (now - dedup_minutes ≤ s.created_at))).isSome

/-- Modelled from the spec: stand-in for Python's `random.Random` stream.
The repository seeds `random.Random` with `int(sha256(f"{id}_{user_id}"),16)`
and draws via `uniform`; the Mersenne-Twister internals are library code that
is not part of the repository, so the generator is modelled as an explicit
deterministic function of (seed, draw index) with values in [0, 1) — the
properties the spec relies on (determinism in the seed, draws inside the
requested interval). -/
def mt_draw (seed i : Nat) : ℚ :=
  (((seed + 1) * 48271 + i * 2654435761) % 1000003 : Nat) / 1000003

/-- Modelled from the spec: stand-in for `int(hashlib.sha256(s).hexdigest(),
16)` — a deterministic hash from seed strings to generator seeds (sha256
itself is library code outside the repository).  It folds over the character
list of the string. -/
def str_hash (s : String) : Nat :=
  s.data.foldl (fun h c => (h * 31 + c.toNat) % 1000000007) 7


/-- `random.Random.uniform(lo, hi)`: `lo + (hi-lo) * random()`. -/
def py_uniform (seed i : Nat) (lo hi : ℚ) : ℚ :=
  lo + (hi - lo) * mt_draw seed i

/-- `vary` inside `signals.generate_user_signal`: a rounded uniform draw from
`val*(1-pct)` to `val*(1+pct)`; `i` is the position of the draw in the
generator stream (the Python code consumes one `uniform` call per value, in
field order). -/
def vary (seed i : Nat) (val pct : ℚ) : ℚ :=
  round4 (py_uniform seed i (val * (1 - pct)) (val * (1 + pct)))

/-- The generator seed of `signals.generate_user_signal`: hash of
`f"{base_signal['_id']}_{user_id}"`. -/
def user_signal_seed (base : BaseSignal) (user_id : Int) : Nat :=
  str_hash (toString base.oid ++ "_" ++ toString user_id)

/-- The freshly derived subscriber signal built by
`signals.generate_user_signal` when no live record exists: direction-aware
stop-loss/take-profit baselines off the base entry price, perturbed by the
seeded generator (draws 0 to 9 in source order), entry zone recomputed from
the base entry, validity windows inherited from the base signal. -/
def fresh_user_signal (base : BaseSignal) (user_id : Int) (fp : Nat) (now : Int) :
    UserSignal :=
  let seed := user_signal_seed base user_id
  let direction := py_upper base.direction
  let entry := base.entry_price
  let slBase := if direction == "LONG" then entry * (99/100) else entry * (101/100)
  let tp1Base := if direction == "LONG" then entry * (101/100) else entry * (99/100)
  let tp2Base := if direction == "LONG" then entry * (102/100) else entry * (98/100)
  { user_id := user_id
    signal_id := base.oid
    symbol := base.symbol
    direction := direction
    entry_price := vary seed 0 entry (5/10000)
    entry_zone_low := (calculate_entry_zone entry (15/10000)).1
    entry_zone_high := (calculate_entry_zone entry (15/10000)).2
    conservador := ⟨vary seed 1 slBase (1/1000),
      [vary seed 2 tp1Base (1/1000), vary seed 3 tp2Base (1/1000)]⟩
    moderado := ⟨vary seed 4 slBase (1/1000),
      [vary seed 5 tp1Base (1/1000), vary seed 6 tp2Base (1/1000)]⟩
    agresivo := ⟨vary seed 7 slBase (1/1000),
      [vary seed 8 tp1Base (1/1000), vary seed 9 tp2Base (1/1000)]⟩
    timeframes := base.timeframes
    created_at := now
    valid_until := base.valid_until
    telegram_valid_until := base.telegram_valid_until
    fingerprint := fp
    visibility := base.visibility }

/-- The duplicate-check predicate of the deriver: a stored subscriber signal
for this user and symbol whose telegram validity has not expired.  Note that
the base signal id is NOT part of the key. -/
def live_for (uid : Int) (sym : String) (now : Int) (us : UserSignal) : Bool :=
  us.user_id == uid && us.symbol == sym && decide (now < us.telegram_valid_until)

/-- `signals.generate_user_signal`: return the stored live record for
(user, symbol) when one exists, else derive, persist and return a fresh
one. -/
def generate_user_signal (db : SigDB) (base : BaseSignal) (user_id : Int)
    (now : Int) : SigDB × UserSignal :=
  match db.user_signals.find? (live_for user_id base.symbol now) with
  | some existing => (db, existing)
  | none =>
    let us := fresh_user_signal base user_id db.next_fingerprint now
    ({ db with user_signals := db.user_signals ++ [us],
               next_fingerprint := db.next_fingerprint + 1 }, us)

/-- The loop body of `signals.generate_user_signal_for_plan`: skip a user
whose `plan_end` is set and past; otherwise, when the user is an admin or
their plan equals the signal's visibility and they hold no live signal for
the symbol, derive a subscriber signal for them. -/
def fanout_step (base : BaseSignal) (now : Int) (d : SigDB) (u : User) : SigDB :=
  if (match u.plan_end with | some e => decide (e < now) | none => false) then d
  else if is_admin d.admins u.user_id || u.plan == base.visibility then
    match d.user_signals.find? (live_for u.user_id base.symbol now) with
    | some _ => d
    | none => (generate_user_signal d base u.user_id now).1
  else d

/-- `signals.generate_user_signal_for_plan`: iterate all users. -/
def generate_user_signal_for_plan (db : SigDB) (base : BaseSignal) (now : Int) :
    SigDB :=
  db.users.foldl (fanout_step base now) db

/-- The fallback branch of `signals.estimate_minutes_to_entry` (the main
branch needs a live market-price fetch, which this embedding does not have;
the field is irrelevant to every claim): min = max(1, int(base*0.5)),
max = int(base*1.5). -/
def estimate_minutes_to_entry (validity : Int) : Int × Int :=
  (max 1 (validity / 2), validity * 3 / 2)

/-- `signals.create_base_signal`: refuse when the per-symbol cooldown is
active, else persist the base signal with its validity windows and entry
zone, then fan out subscriber derivation. -/
def create_base_signal (db : SigDB) (now : Int) (symbol direction : String)
    (entry_price stop_loss : ℚ) (take_profits : List ℚ)
    (timeframes : List String) (visibility : String) (score : Option ℚ)
    (components : Option (List (String × ℚ))) : SigDB × Option BaseSignal :=
  if telegram_signal_blocked db (some symbol) now then (db, none)
  else
    let zone := calculate_entry_zone entry_price (15/10000)
    let validity := calculate_signal_validity timeframes
    let est := estimate_minutes_to_entry validity
    let signal : BaseSignal :=
      { oid := db.next_id, symbol := symbol, direction := direction,
        entry_price := entry_price, stop_loss := stop_loss,
        take_profits := take_profits, timeframes := timeframes,
        visibility := visibility, score := score, components := components,
        created_at := now, valid_until := now + validity,
        telegram_valid_until := now + telegram_cooldown_minutes,
        entry_zone_low := zone.1, entry_zone_high := zone.2,
        est_min := est.1, est_max := est.2 }
    let db1 := { db with signals := db.signals ++ [signal],
                         next_id := db.next_id + 1 }
    let db2 := generate_user_signal_for_plan db1 signal now
    (db2, some signal)

/-- One candidate step of `scanner.scan_market_async`: the scanner skips a
ranked candidate when `recent_duplicate_exists` holds for its (symbol,
direction, visibility), otherwise calls `create_base_signal`. -/
def scanner_attempt_create (db : SigDB) (now : Int) (symbol direction : String)
    (visibility : String) (entry_price stop_loss : ℚ) (take_profits : List ℚ)
    (timeframes : List String) (score : Option ℚ)
    (components : Option (List (String × ℚ))) : SigDB × Option BaseSignal :=
  if recent_duplicate_exists db symbol direction visibility now then (db, none)
  else create_base_signal db now symbol direction entry_price stop_loss
    take_profits timeframes visibility score components

/-- The per-user decision of `notifier._eligible_users_for_alert`, in source
order: no access and not admin excludes; an admin is included only for the
premium stream; otherwise exact plan match. -/
def push_takes (admins : List Int) (signal_visibility : String) (now : Int)
    (u : User) : Bool :=
  let admin := is_admin admins u.user_id
  let access := is_plan_active u now || is_trial_active u now
  if !access && !admin then false
  else if admin then signal_visibility == "premium"
  else u.plan == signal_visibility

/-- `notifier._eligible_users_for_alert`: fold over the user collection
collecting ids of users who must receive the push. -/
def eligible_users_for_alert (db : SigDB) (signal_visibility : String)
    (now : Int) : List Int :=
  db.users.foldl (fun acc u =>
    if push_takes db.admins signal_visibility now u then acc ++ [u.user_id]
    else acc) []

-- ======================================================================
-- C1 / C7 : creation gates
-- ======================================================================

lemma telegram_blocked_iff (db : SigDB) (sym : String) (now : Int) :
    telegram_signal_blocked db (some sym) now = true ↔
      ∃ s ∈ db.signals, now - telegram_cooldown_minutes ≤ s.created_at ∧
        s.symbol = sym := by
  unfold telegram_signal_blocked
  rw [List.find?_isSome]
  simp

/-- An example base signal for ETHUSDT created at time 0. -/
def ethSignal : BaseSignal :=
  ⟨0, "ETHUSDT", "LONG", 2000, 1980, [2020, 2040], ["5M", "15M", "1H"],
   "premium", none, none, 0, 60, 15, 1997, 2003, 1, 1⟩

/-- An example base signal for BTCUSDT created at time 0. -/
def btcSignal : BaseSignal :=
  ⟨0, "BTCUSDT", "LONG", 100, 99, [101, 102], ["5M", "15M", "1H"],
   "premium", none, none, 0, 60, 15, 99, 101, 1, 1⟩

/-- C1 counterexample: at time 5 the cooldown window of the ETHUSDT signal
(created at 0) is still open — `telegram_signal_blocked` with no symbol
filter confirms it — yet `create_base_signal` happily creates a BTCUSDT
signal, because its gate calls `telegram_signal_blocked(symbol)` which
filters on the same symbol only.  This refutes the claim that an open
cooldown window suspends creation regardless of symbol. -/
theorem C1_counterexample :
    telegram_signal_blocked ⟨[ethSignal], [], [], [], 1, 0⟩ none 5 = true ∧
    (create_base_signal ⟨[ethSignal], [], [], [], 1, 0⟩ 5 "BTCUSDT" "LONG"
      100 99 [101, 102] ["5M", "15M", "1H"] "premium" (some 90) none).2.isSome
      = true := by
  refine ⟨by decide, by decide⟩

/-- C1 amended: the distribution cooldown enforced by `create_base_signal`
is per-symbol — creation is refused (store unchanged, empty result) iff some
base signal FOR THE SAME SYMBOL was created within the last
`telegram_cooldown` = 15 minutes; when every same-symbol signal is older
than the window, creation proceeds. -/
lemma create_cooldown_block (db : SigDB) (now : Int) (symbol direction : String)
    (entry_price stop_loss : ℚ) (take_profits : List ℚ)
    (timeframes : List String) (visibility : String) (score : Option ℚ)
    (components : Option (List (String × ℚ)))
    (hex : ∃ s ∈ db.signals, now - telegram_cooldown_minutes ≤ s.created_at ∧
      s.symbol = symbol) :
    create_base_signal db now symbol direction entry_price stop_loss
      take_profits timeframes visibility score components = (db, none) := by
  have hb : telegram_signal_blocked db (some symbol) now = true :=
    (telegram_blocked_iff db symbol now).mpr hex
  simp [create_base_signal, hb]

lemma create_cooldown_pass (db : SigDB) (now : Int) (symbol direction : String)
    (entry_price stop_loss : ℚ) (take_profits : List ℚ)
    (timeframes : List String) (visibility : String) (score : Option ℚ)
    (components : Option (List (String × ℚ)))
    (hall : ∀ s ∈ db.signals, s.symbol = symbol →
      s.created_at < now - telegram_cooldown_minutes) :
    (create_base_signal db now symbol direction entry_price stop_loss
      take_profits timeframes visibility score components).2.isSome = true := by
  have hb : telegram_signal_blocked db (some symbol) now = false := by
    rw [← Bool.not_eq_true]
    intro hcontra
    obtain ⟨s, hmem, hle, hsym⟩ := (telegram_blocked_iff db symbol now).mp hcontra
    exact absurd hle (not_le.mpr (hall s hmem hsym))
  simp [create_base_signal, hb]

theorem C1_per_symbol_cooldown (db : SigDB) (now : Int) (symbol direction : String)
    (entry_price stop_loss : ℚ) (take_profits : List ℚ)
    (timeframes : List String) (visibility : String) (score : Option ℚ)
    (components : Option (List (String × ℚ))) :
    ((∃ s ∈ db.signals, now - telegram_cooldown_minutes ≤ s.created_at ∧
        s.symbol = symbol) →
      create_base_signal db now symbol direction entry_price stop_loss
        take_profits timeframes visibility score components = (db, none)) ∧
    ((∀ s ∈ db.signals, s.symbol = symbol →
        s.created_at < now - telegram_cooldown_minutes) →
      (create_base_signal db now symbol direction entry_price stop_loss
        take_profits timeframes visibility score components).2.isSome = true) :=
  ⟨create_cooldown_block db now symbol direction entry_price stop_loss
      take_profits timeframes visibility score components,
   create_cooldown_pass db now symbol direction entry_price stop_loss
      take_profits timeframes visibility score components⟩

/-- C1 witness: the amended theorem at concrete stores — a same-symbol signal
inside the window blocks (store unchanged), and a store whose only signal is
15 minutes stale lets a new one through. -/
theorem C1_per_symbol_cooldown_witness :
    create_base_signal ⟨[ethSignal], [], [], [], 1, 0⟩ 5 "ETHUSDT" "LONG"
      2000 1980 [2020, 2040] ["5M", "15M", "1H"] "premium" (some 90) none
      = (⟨[ethSignal], [], [], [], 1, 0⟩, none) ∧
    (create_base_signal ⟨[ethSignal], [], [], [], 1, 0⟩ 16 "ETHUSDT" "LONG"
      2000 1980 [2020, 2040] ["5M", "15M", "1H"] "premium" (some 90)
      none).2.isSome = true :=
  ⟨(C1_per_symbol_cooldown ⟨[ethSignal], [], [], [], 1, 0⟩ 5 "ETHUSDT" "LONG"
      2000 1980 [2020, 2040] ["5M", "15M", "1H"] "premium" (some 90) none).1
      ⟨ethSignal, by decide⟩,
   (C1_per_symbol_cooldown ⟨[ethSignal], [], [], [], 1, 0⟩ 16 "ETHUSDT" "LONG"
      2000 1980 [2020, 2040] ["5M", "15M", "1H"] "premium" (some 90) none).2
      (by decide)⟩

/-- C7 counterexample: a BTCUSDT/LONG/premium signal was created at time 0;
at time 12 the 10-minute dedup window HAS elapsed (`recent_duplicate_exists`
is false), yet creating the identical triple is still refused, because
`create_base_signal`'s own 15-minute per-symbol cooldown is still open.  This
refutes the claim that creation succeeds once the dedup window elapses. -/
theorem C7_counterexample :
    recent_duplicate_exists ⟨[btcSignal], [], [], [], 1, 0⟩ "BTCUSDT" "LONG"
      "premium" 12 = false ∧
    scanner_attempt_create ⟨[btcSignal], [], [], [], 1, 0⟩ 12 "BTCUSDT" "LONG"
      "premium" 100 99 [101, 102] ["5M", "15M", "1H"] (some 90) none
      = (⟨[btcSignal], [], [], [], 1, 0⟩, none) := by
  refine ⟨by decide, by decide⟩

/-- C7 amended: a second base signal for an identical (symbol, direction,
tier) triple within the dedup window is refused; creation succeeds only once
every same-symbol signal is also older than the 15-minute per-symbol
cooldown (which subsumes the 10-minute dedup window), not as soon as the
dedup window elapses. -/
theorem C7_dedup_window (db : SigDB) (now : Int) (symbol direction vis : String)
    (entry_price stop_loss : ℚ) (take_profits : List ℚ)
    (timeframes : List String) (score : Option ℚ)
    (components : Option (List (String × ℚ))) :
    ((∃ s ∈ db.signals, now - dedup_minutes ≤ s.created_at ∧ s.symbol = symbol ∧
        s.direction = direction ∧ s.visibility = vis) →
      scanner_attempt_create db now symbol direction vis entry_price stop_loss
        take_profits timeframes score components = (db, none)) ∧
    ((∀ s ∈ db.signals, s.symbol = symbol →
        s.created_at < now - telegram_cooldown_minutes) →
      (scanner_attempt_create db now symbol direction vis entry_price stop_loss
        take_profits timeframes score components).2.isSome = true) := by
  constructor
  · intro hex
    obtain ⟨s, hmem, hle, hsym, hdir, hvis⟩ := hex
    have hdup : recent_duplicate_exists db symbol direction vis now = true := by
      unfold recent_duplicate_exists
      rw [List.find?_isSome]
      exact ⟨s, hmem, by simp [hsym, hdir, hvis, hle]⟩
    simp [scanner_attempt_create, hdup]
  · intro hall
    have hdup : recent_duplicate_exists db symbol direction vis now = false := by
      rw [← Bool.not_eq_true]
      intro hcontra
      unfold recent_duplicate_exists at hcontra
      rw [List.find?_isSome] at hcontra
      obtain ⟨s, hmem, hp⟩ := hcontra
      simp only [Bool.and_eq_true, beq_iff_eq, decide_eq_true_eq] at hp
      have hlt := hall s hmem hp.1.1.1
      have : now - dedup_minutes ≤ s.created_at := hp.2
      unfold dedup_minutes at this
      unfold telegram_cooldown_minutes at hlt
      omega
    have := create_cooldown_pass db now symbol direction entry_price
      stop_loss take_profits timeframes vis score components hall
    simp [scanner_attempt_create, hdup]
    exact this

/-- C7 witness: the amended theorem at concrete stores — the same triple 5
minutes later is refused, and 16 minutes later it is created. -/
theorem C7_dedup_window_witness :
    scanner_attempt_create ⟨[btcSignal], [], [], [], 1, 0⟩ 5 "BTCUSDT" "LONG"
      "premium" 100 99 [101, 102] ["5M", "15M", "1H"] (some 90) none
      = (⟨[btcSignal], [], [], [], 1, 0⟩, none) ∧
    (scanner_attempt_create ⟨[btcSignal], [], [], [], 1, 0⟩ 16 "BTCUSDT" "LONG"
      "premium" 100 99 [101, 102] ["5M", "15M", "1H"] (some 90)
      none).2.isSome = true :=
  ⟨(C7_dedup_window ⟨[btcSignal], [], [], [], 1, 0⟩ 5 "BTCUSDT" "LONG" "premium"
      100 99 [101, 102] ["5M", "15M", "1H"] (some 90) none).1
      ⟨btcSignal, by decide⟩,
   (C7_dedup_window ⟨[btcSignal], [], [], [], 1, 0⟩ 16 "BTCUSDT" "LONG" "premium"
      100 99 [101, 102] ["5M", "15M", "1H"] (some 90) none).2 (by decide)⟩

-- ======================================================================
-- C5 / C10 : per-subscriber derivation
-- ======================================================================

lemma find?_first_of_imp {α} (p q : α → Bool) :
    ∀ (l : List α) (e : α), l.find? p = some e →
      (∀ x, q x = true → p x = true) → q e = true → l.find? q = some e := by
  intro l
  induction l with
  | nil => intro e h; simp at h
  | cons a t ih =>
    intro e hfind himp hqe
    by_cases hpa : p a = true
    · rw [List.find?_cons_of_pos _ hpa] at hfind
      have he : a = e := by injection hfind
      subst he
      rw [List.find?_cons_of_pos _ hqe]
    · rw [List.find?_cons_of_neg _ hpa] at hfind
      have hqa : ¬ q a = true := fun h => hpa (himp a h)
      rw [List.find?_cons_of_neg _ hqa]
      exact ih e hfind himp hqe

lemma live_for_mono (uid : Int) (sym : String) (now now' : Int) (h : now ≤ now') :
    ∀ us, live_for uid sym now' us = true → live_for uid sym now us = true := by
  intro us hl
  simp only [live_for, Bool.and_eq_true, decide_eq_true_eq] at *
  exact ⟨hl.1, lt_of_le_of_lt h hl.2⟩

/-- A base signal whose entry price 0.0001 is small enough that rounding the
derived variants to four decimals collapses the whole perturbation range. -/
def tinySignal : BaseSignal :=
  ⟨1, "XUSDT", "LONG", 1/10000, 99/1000000, [101/1000000, 102/1000000],
   ["5M"], "premium", none, none, 0, 5, 15, 1/10000, 1/10000, 1, 1⟩

/-- C5 counterexample: subscriber 1 and subscriber 2 derive from the same
base signal with DIFFERENT generator seeds, yet every numeric variant (entry
price and all three per-profile stop-loss/take-profit sets) is identical,
because with entry price 0.0001 the perturbation intervals all round to the
same four-decimal value.  This refutes the claim that a different subscriber
yields different numeric variants. -/
theorem C5_counterexample :
    (generate_user_signal ⟨[], [], [], [], 2, 0⟩ tinySignal 1 0).2.user_id ≠
      (generate_user_signal (generate_user_signal ⟨[], [], [], [], 2, 0⟩
        tinySignal 1 0).1 tinySignal 2 0).2.user_id ∧
    user_signal_seed tinySignal 1 ≠ user_signal_seed tinySignal 2 ∧
    (generate_user_signal ⟨[], [], [], [], 2, 0⟩ tinySignal 1 0).2.entry_price =
      (generate_user_signal (generate_user_signal ⟨[], [], [], [], 2, 0⟩
        tinySignal 1 0).1 tinySignal 2 0).2.entry_price ∧
    (generate_user_signal ⟨[], [], [], [], 2, 0⟩ tinySignal 1 0).2.conservador =
      (generate_user_signal (generate_user_signal ⟨[], [], [], [], 2, 0⟩
        tinySignal 1 0).1 tinySignal 2 0).2.conservador ∧
    (generate_user_signal ⟨[], [], [], [], 2, 0⟩ tinySignal 1 0).2.moderado =
      (generate_user_signal (generate_user_signal ⟨[], [], [], [], 2, 0⟩
        tinySignal 1 0).1 tinySignal 2 0).2.moderado ∧
    (generate_user_signal ⟨[], [], [], [], 2, 0⟩ tinySignal 1 0).2.agresivo =
      (generate_user_signal (generate_user_signal ⟨[], [], [], [], 2, 0⟩
        tinySignal 1 0).1 tinySignal 2 0).2.agresivo := by
  refine ⟨by decide, by decide, by decide, by decide, by decide, by decide⟩

/-- C5 amended: (i) re-deriving for the same (base, subscriber) pair while
the stored record's telegram validity is still open returns that stored
record unchanged (idempotence — never a new random draw); (ii) the numeric
variants of a fresh derivation are a deterministic function of the base id,
the subscriber id, the base entry price and the direction (the seed is a
hash of (base id, subscriber id)); distinct subscribers get distinct seeds
but their rounded numeric variants need not differ. -/
theorem C5_idempotent_deterministic :
    (∀ (db : SigDB) (base : BaseSignal) (uid : Int) (now now' : Int),
      now ≤ now' →
      now' < (generate_user_signal db base uid now).2.telegram_valid_until →
      generate_user_signal (generate_user_signal db base uid now).1 base uid now'
        = ((generate_user_signal db base uid now).1,
           (generate_user_signal db base uid now).2)) ∧
    (∀ (b b' : BaseSignal) (uid : Int) (fp fp' : Nat) (now now' : Int),
      b.oid = b'.oid → b.entry_price = b'.entry_price → b.direction = b'.direction →
      (fresh_user_signal b uid fp now).entry_price
          = (fresh_user_signal b' uid fp' now').entry_price ∧
      (fresh_user_signal b uid fp now).conservador
          = (fresh_user_signal b' uid fp' now').conservador ∧
      (fresh_user_signal b uid fp now).moderado
          = (fresh_user_signal b' uid fp' now').moderado ∧
      (fresh_user_signal b uid fp now).agresivo
          = (fresh_user_signal b' uid fp' now').agresivo) := by
  constructor
  · intro db base uid now now' hle hval
    cases hf : db.user_signals.find? (live_for uid base.symbol now) with
    | some e =>
      have h1 : generate_user_signal db base uid now = (db, e) := by
        simp [generate_user_signal, hf]
      rw [h1] at hval ⊢
      have hlive : live_for uid base.symbol now e = true := List.find?_some hf
      have hq : live_for uid base.symbol now' e = true := by
        simp only [live_for, Bool.and_eq_true, decide_eq_true_eq] at *
        exact ⟨hlive.1, hval⟩
      have h2 : db.user_signals.find? (live_for uid base.symbol now') = some e :=
        find?_first_of_imp _ _ db.user_signals e hf
          (live_for_mono uid base.symbol now now' hle) hq
      simp [generate_user_signal, h2]
    | none =>
      have h1 : generate_user_signal db base uid now =
          (⟨db.signals,
            db.user_signals ++ [fresh_user_signal base uid db.next_fingerprint now],
            db.users, db.admins, db.next_id, db.next_fingerprint + 1⟩,
           fresh_user_signal base uid db.next_fingerprint now) := by
        simp [generate_user_signal, hf]
      rw [h1] at hval ⊢
      dsimp only at hval ⊢
      have hnone : ∀ x ∈ db.user_signals,
          ¬ live_for uid base.symbol now' x = true := by
        intro x hx hq
        exact (List.find?_eq_none.mp hf) x hx
          (live_for_mono uid base.symbol now now' hle x hq)
      have hfreshlive : live_for uid base.symbol now'
          (fresh_user_signal base uid db.next_fingerprint now) = true := by
        simp only [live_for, fresh_user_signal, Bool.and_eq_true, decide_eq_true_eq]
        exact ⟨⟨by simp, by simp⟩, hval⟩
      have h2 : (db.user_signals ++
          [fresh_user_signal base uid db.next_fingerprint now]).find?
            (live_for uid base.symbol now')
          = some (fresh_user_signal base uid db.next_fingerprint now) := by
        rw [List.find?_append]
        rw [List.find?_eq_none.mpr hnone]
        simp [List.find?_cons_of_pos _ hfreshlive]
      simp [generate_user_signal, h2]
  · intro b b' uid fp fp' now now' hoid hentry hdir
    refine ⟨?_, ?_, ?_, ?_⟩ <;>
      simp [fresh_user_signal, user_signal_seed, hoid, hentry, hdir]

/-- C5 witness: the amended theorem at a concrete store — deriving again five
minutes later returns the stored record, and the numeric determinism at the
tiny signal with two different fingerprints and times. -/
theorem C5_idempotent_deterministic_witness :
    (generate_user_signal (generate_user_signal ⟨[], [], [], [], 2, 0⟩
        tinySignal 1 0).1 tinySignal 1 5
      = ((generate_user_signal ⟨[], [], [], [], 2, 0⟩ tinySignal 1 0).1,
         (generate_user_signal ⟨[], [], [], [], 2, 0⟩ tinySignal 1 0).2)) ∧
    ((fresh_user_signal tinySignal 1 3 0).entry_price
        = (fresh_user_signal tinySignal 1 4 7).entry_price ∧
     (fresh_user_signal tinySignal 1 3 0).conservador
        = (fresh_user_signal tinySignal 1 4 7).conservador ∧
     (fresh_user_signal tinySignal 1 3 0).moderado
        = (fresh_user_signal tinySignal 1 4 7).moderado ∧
     (fresh_user_signal tinySignal 1 3 0).agresivo
        = (fresh_user_signal tinySignal 1 4 7).agresivo) :=
  ⟨C5_idempotent_deterministic.1 ⟨[], [], [], [], 2, 0⟩ tinySignal 1 0 5
      (by decide) (by decide),
   C5_idempotent_deterministic.2 tinySignal tinySignal 1 3 4 0 7 rfl rfl rfl⟩

/-- An already-stored live subscriber signal for (user 1, BTCUSDT) whose
`signal_id` (99) differs from the base signal being distributed. -/
def oldUserSignal : UserSignal :=
  ⟨1, 99, "BTCUSDT", "LONG", 100, 99, 101, ⟨99, [101, 102]⟩, ⟨99, [101, 102]⟩,
   ⟨99, [101, 102]⟩, ["5M"], 0, 60, 20, 5, "premium"⟩

/-- C10: the deriver's duplicate check is keyed on (subscriber id, symbol)
only — when any live record for that key exists, `generate_user_signal`
returns it unchanged (its `signal_id` may reference an older base signal);
consequently the store invariant "at most one live SubscriberSignal per
(subscriber, symbol)" is preserved by derivation. -/
theorem C10_one_live_per_symbol :
    (∀ (db : SigDB) (base : BaseSignal) (uid : Int) (now : Int) (e : UserSignal),
      db.user_signals.find? (live_for uid base.symbol now) = some e →
      generate_user_signal db base uid now = (db, e)) ∧
    (∀ (db : SigDB) (base : BaseSignal) (uid : Int) (now : Int),
      (∀ u s, db.user_signals.countP (live_for u s now) ≤ 1) →
      ∀ u s, (generate_user_signal db base uid now).1.user_signals.countP
        (live_for u s now) ≤ 1) := by
  constructor
  · intro db base uid now e hf
    simp [generate_user_signal, hf]
  · intro db base uid now hinv u s
    cases hf : db.user_signals.find? (live_for uid base.symbol now) with
    | some e =>
      have h1 : (generate_user_signal db base uid now).1 = db := by
        simp [generate_user_signal, hf]
      rw [h1]
      exact hinv u s
    | none =>
      have h1 : (generate_user_signal db base uid now).1.user_signals =
          db.user_signals ++ [fresh_user_signal base uid db.next_fingerprint now] := by
        simp [generate_user_signal, hf]
      rw [h1, List.countP_append]
      cases hlive : live_for u s now
        (fresh_user_signal base uid db.next_fingerprint now) with
      | false => simpa [List.countP_cons, hlive] using hinv u s
      | true =>
        have hus : u = uid ∧ s = base.symbol := by
          simp only [live_for, fresh_user_signal, Bool.and_eq_true,
            beq_iff_eq] at hlive
          exact ⟨hlive.1.1.symm, hlive.1.2.symm⟩
        rw [hus.1, hus.2]
        have hzero : db.user_signals.countP (live_for uid base.symbol now) = 0 := by
          rw [List.countP_eq_zero]
          intro a ha
          exact List.find?_eq_none.mp hf a ha
        rw [hus.1, hus.2] at hlive
        simp [hzero, List.countP_cons, hlive]

/-- C10 witness: with a live record for (user 1, BTCUSDT) referencing base
signal 99 in the store, deriving for base signal 0 of the same symbol
returns the stored record unchanged; and the one-live-per-key bound after a
fresh insert into an empty store. -/
theorem C10_one_live_per_symbol_witness :
    generate_user_signal ⟨[], [oldUserSignal], [], [], 7, 0⟩ btcSignal 1 10
      = (⟨[], [oldUserSignal], [], [], 7, 0⟩, oldUserSignal) ∧
    oldUserSignal.signal_id ≠ btcSignal.oid ∧
    (generate_user_signal ⟨[], [], [], [], 7, 0⟩ btcSignal 1 10).1.user_signals.countP
      (live_for 1 "BTCUSDT" 10) ≤ 1 :=
  ⟨C10_one_live_per_symbol.1 ⟨[], [oldUserSignal], [], [], 7, 0⟩ btcSignal 1 10
      oldUserSignal (by decide),
   by decide,
   C10_one_live_per_symbol.2 ⟨[], [], [], [], 7, 0⟩ btcSignal 1 10
      (fun u s => by rw [List.countP_nil]; simp) 1 "BTCUSDT"⟩

-- ======================================================================
-- C3 : distribution eligibility (push + fan-out)
-- ======================================================================

/-- The gate under which the fan-out loop derives a fresh subscriber signal
for user `u`: `plan_end` absent or not in the past (the trial is never
consulted), admin OR exact plan match (an admin passes for every tier), and
no live record for (user, symbol) yet. -/
def fanout_gate (db : SigDB) (base : BaseSignal) (now : Int) (u : User) : Bool :=
  !(match u.plan_end with | some e => decide (e < now) | none => false) &&
  (is_admin db.admins u.user_id || u.plan == base.visibility) &&
  !(db.user_signals.find? (live_for u.user_id base.symbol now)).isSome

lemma push_takes_iff (A : List Int) (vis : String) (now : Int) (u : User) :
    push_takes A vis now u = true ↔
      ((is_plan_active u now || is_trial_active u now) = true ∨
        is_admin A u.user_id = true) ∧
      (if is_admin A u.user_id then vis = "premium" else u.plan = vis) := by
  unfold push_takes
  by_cases ha : is_admin A u.user_id = true <;>
    by_cases hc : (is_plan_active u now || is_trial_active u now) = true <;>
      simp [ha, hc, Bool.not_eq_true]

lemma foldl_push (A : List Int) (vis : String) (now : Int) :
    ∀ (l : List User) (acc : List Int),
      l.foldl (fun acc u => if push_takes A vis now u then acc ++ [u.user_id]
        else acc) acc
      = acc ++ (l.filter (push_takes A vis now)).map User.user_id := by
  intro l
  induction l with
  | nil => intro acc; simp
  | cons v t ih =>
    intro acc
    by_cases hv : push_takes A vis now v = true <;>
      simp [List.foldl_cons, List.filter_cons, hv, ih]

lemma fanout_step_users (b : BaseSignal) (now : Int) (d : SigDB) (v : User) :
    (fanout_step b now d v).users = d.users ∧
    (fanout_step b now d v).admins = d.admins := by
  unfold fanout_step
  split
  · exact ⟨rfl, rfl⟩
  · split
    · cases hf : d.user_signals.find? (live_for v.user_id b.symbol now) with
      | some e => simp [hf]
      | none => simp [hf, generate_user_signal]
    · exact ⟨rfl, rfl⟩

lemma fanout_step_signals (b : BaseSignal) (now : Int) (d : SigDB) (v : User) :
    (fanout_step b now d v).user_signals = d.user_signals ∨
    (fanout_step b now d v).user_signals = d.user_signals ++
      [fresh_user_signal b v.user_id d.next_fingerprint now] := by
  unfold fanout_step
  split
  · exact Or.inl rfl
  · split
    · cases hf : d.user_signals.find? (live_for v.user_id b.symbol now) with
      | some e => exact Or.inl (by simp [hf])
      | none => exact Or.inr (by simp [hf, generate_user_signal])
    · exact Or.inl rfl

lemma step_count_other (b : BaseSignal) (now : Int) (d : SigDB) (v : User)
    (uid : Int) (h : v.user_id ≠ uid) :
    (fanout_step b now d v).user_signals.countP (fun r => r.user_id == uid)
      = d.user_signals.countP (fun r => r.user_id == uid) := by
  rcases fanout_step_signals b now d v with h1 | h1 <;> rw [h1]
  rw [List.countP_append]
  have : (fresh_user_signal b v.user_id d.next_fingerprint now).user_id = v.user_id := rfl
  simp [List.countP_cons, this, h]

lemma step_find_other (b : BaseSignal) (now : Int) (d : SigDB) (v : User)
    (uid : Int) (sym : String) (h : v.user_id ≠ uid) :
    (fanout_step b now d v).user_signals.find? (live_for uid sym now)
      = d.user_signals.find? (live_for uid sym now) := by
  rcases fanout_step_signals b now d v with h1 | h1 <;> rw [h1]
  rw [List.find?_append]
  have hfresh : live_for uid sym now
      (fresh_user_signal b v.user_id d.next_fingerprint now) = false := by
    simp only [live_for, fresh_user_signal]
    simp
    intro hc _
    exact absurd hc h
  simp [List.find?, hfresh]

lemma gate_other (b : BaseSignal) (now : Int) (d : SigDB) (v u : User)
    (h : v.user_id ≠ u.user_id) :
    fanout_gate (fanout_step b now d v) b now u = fanout_gate d b now u := by
  unfold fanout_gate
  rw [step_find_other b now d v u.user_id b.symbol h,
    (fanout_step_users b now d v).2]

lemma step_count_self (b : BaseSignal) (now : Int) (d : SigDB) (v : User) :
    (fanout_step b now d v).user_signals.countP (fun r => r.user_id == v.user_id)
      = d.user_signals.countP (fun r => r.user_id == v.user_id)
        + (if fanout_gate d b now v then 1 else 0) := by
  unfold fanout_step fanout_gate
  split
  · rename_i h; simp [h]
  · rename_i h
    split
    · rename_i h2
      cases hf : d.user_signals.find? (live_for v.user_id b.symbol now) with
      | some e => simp [h, h2, hf]
      | none =>
        have hfresh : (fresh_user_signal b v.user_id d.next_fingerprint now).user_id
            = v.user_id := rfl
        simp [h, h2, hf, generate_user_signal, List.countP_append,
          List.countP_cons, hfresh]
    · rename_i h2
      have hno := not_or.mp (by simpa only [Bool.or_eq_true] using h2)
      simp [h, Bool.eq_false_iff.mpr hno.1, Bool.eq_false_iff.mpr hno.2]

lemma fold_count_other (b : BaseSignal) (now : Int) :
    ∀ (t : List User) (d : SigDB) (uid : Int), (∀ w ∈ t, w.user_id ≠ uid) →
      ((t.foldl (fanout_step b now) d).user_signals.countP
        (fun r => r.user_id == uid))
      = d.user_signals.countP (fun r => r.user_id == uid) := by
  intro t
  induction t with
  | nil => intro d uid _; rfl
  | cons v s ih =>
    intro d uid hall
    rw [List.foldl_cons, ih (fanout_step b now d v) uid
      (fun w hw => hall w (List.mem_cons_of_mem v hw)),
      step_count_other b now d v uid (hall v (List.mem_cons_self v s))]

lemma fold_count (b : BaseSignal) (now : Int) :
    ∀ (l : List User) (d : SigDB) (u : User), u ∈ l →
      (l.map User.user_id).Nodup →
      ((l.foldl (fanout_step b now) d).user_signals.countP
        (fun r => r.user_id == u.user_id))
      = d.user_signals.countP (fun r => r.user_id == u.user_id)
        + (if fanout_gate d b now u then 1 else 0) := by
  intro l
  induction l with
  | nil => intro d u h; simp at h
  | cons v t ih =>
    intro d u hmem hnd
    rw [List.map_cons, List.nodup_cons] at hnd
    rcases List.mem_cons.mp hmem with heq | htail
    · subst heq
      rw [List.foldl_cons,
        fold_count_other b now t (fanout_step b now d u) u.user_id ?_,
        step_count_self b now d u]
      intro w hw hcontra
      exact hnd.1 (hcontra ▸ List.mem_map_of_mem User.user_id hw)
    · have hvne : v.user_id ≠ u.user_id := by
        intro hcontra
        exact hnd.1 (hcontra ▸ List.mem_map_of_mem User.user_id htail)
      rw [List.foldl_cons, ih (fanout_step b now d v) u htail hnd.2,
        step_count_other b now d v u.user_id hvne,
        gate_other b now d v u hvne]

/-- A non-admin free-plan user whose trial and plan are absent (no current
access). -/
def noAccessUser : User := ⟨7, "free", none, none, none, 0, 0, 0, 0, 0⟩

/-- C3 counterexample: user 7 is an administrator (admin list [7]) with NO
current access — no active plan, no trial — yet the push eligibility
computation selects them for the premium stream; and for a free-tier base
signal, the fan-out derives a SubscriberSignal for the admin even though the
claim says admins only ever receive the premium stream.  Both refute the
claimed recipient rule (access required, and admins premium-only in both
paths). -/
theorem C3_counterexample :
    eligible_users_for_alert ⟨[], [], [noAccessUser], [7], 1, 0⟩ "premium" 0
      = [7] ∧
    has_access noAccessUser 0 = false ∧
    (generate_user_signal_for_plan
      ⟨[], [], [⟨7, "plus", some 100, none, none, 0, 0, 0, 0, 0⟩], [7], 1, 0⟩
      ⟨0, "BTCUSDT", "LONG", 100, 99, [101, 102], ["5M"], "free", none, none,
       0, 5, 15, 99, 101, 1, 1⟩ 0).user_signals.countP
        (fun r => r.user_id == 7) = 1 := by
  refine ⟨by decide, by decide, by decide⟩

/-- C3 amended: (i) push eligibility — a subscriber receives the push iff
(current access OR admin) and (admin: the premium tier only; non-admin:
exact plan match); an admin needs no current access.  (ii) fan-out — a fresh
SubscriberSignal is derived for a subscriber iff their `plan_end` is absent
or not in the past (the trial is not consulted), they are an admin (any
tier) or their plan equals the signal's tier, and they hold no live signal
for the symbol. -/
theorem C3_eligibility :
    (∀ (db : SigDB) (vis : String) (now : Int) (uid : Int),
      uid ∈ eligible_users_for_alert db vis now ↔
        ∃ u ∈ db.users, u.user_id = uid ∧
          ((is_plan_active u now || is_trial_active u now) = true ∨
            is_admin db.admins u.user_id = true) ∧
          (if is_admin db.admins u.user_id then vis = "premium"
           else u.plan = vis)) ∧
    (∀ (db : SigDB) (base : BaseSignal) (now : Int) (u : User),
      u ∈ db.users → (db.users.map User.user_id).Nodup →
      (generate_user_signal_for_plan db base now).user_signals.countP
        (fun r => r.user_id == u.user_id)
      = db.user_signals.countP (fun r => r.user_id == u.user_id)
        + (if fanout_gate db base now u then 1 else 0)) := by
  constructor
  · intro db vis now uid
    unfold eligible_users_for_alert
    rw [foldl_push db.admins vis now db.users []]
    simp only [List.nil_append, List.mem_map, List.mem_filter]
    constructor
    · rintro ⟨u, ⟨hmem, htake⟩, hid⟩
      exact ⟨u, hmem, hid, (push_takes_iff db.admins vis now u).mp htake⟩
    · rintro ⟨u, hmem, hid, hcond⟩
      exact ⟨u, ⟨hmem, (push_takes_iff db.admins vis now u).mpr hcond⟩, hid⟩
  · intro db base now u hmem hnd
    exact fold_count base now db.users db u hmem hnd

/-- C3 witness: the amended characterization at concrete stores — the
no-access admin is push-eligible for premium (and only via the admin
disjunct), and the fan-out count increments for an admin on a free-tier
signal. -/
theorem C3_eligibility_witness :
    (7 ∈ eligible_users_for_alert ⟨[], [], [noAccessUser], [7], 1, 0⟩
      "premium" 0) ∧
    (generate_user_signal_for_plan
      ⟨[], [], [⟨7, "plus", some 100, none, none, 0, 0, 0, 0, 0⟩], [7], 1, 0⟩
      ⟨0, "BTCUSDT", "LONG", 100, 99, [101, 102], ["5M"], "free", none, none,
       0, 5, 15, 99, 101, 1, 1⟩ 0).user_signals.countP
        (fun r => r.user_id == 7)
      = (⟨[], [], [⟨7, "plus", some 100, none, none, 0, 0, 0, 0, 0⟩], [7], 1,
          0⟩ : SigDB).user_signals.countP (fun r => r.user_id == 7)
        + (if fanout_gate
            ⟨[], [], [⟨7, "plus", some 100, none, none, 0, 0, 0, 0, 0⟩], [7], 1, 0⟩
            ⟨0, "BTCUSDT", "LONG", 100, 99, [101, 102], ["5M"], "free", none,
             none, 0, 5, 15, 99, 101, 1, 1⟩ 0
            ⟨7, "plus", some 100, none, none, 0, 0, 0, 0, 0⟩ then 1 else 0) :=
  ⟨(C3_eligibility.1 ⟨[], [], [noAccessUser], [7], 1, 0⟩ "premium" 0 7).mpr
      ⟨noAccessUser, by decide, rfl, Or.inr (by decide), by decide⟩,
   C3_eligibility.2 ⟨[], [], [⟨7, "plus", some 100, none, none, 0, 0, 0, 0, 0⟩],
      [7], 1, 0⟩
     ⟨0, "BTCUSDT", "LONG", 100, 99, [101, 102], ["5M"], "free", none, none,
      0, 5, 15, 99, 101, 1, 1⟩ 0
     ⟨7, "plus", some 100, none, none, 0, 0, 0, 0, 0⟩ (by decide) (by decide)⟩

-- ======================================================================
-- scanner.py ranking (C8) and strategy.py evaluator (C9)
-- ======================================================================

/-- A scan-cycle candidate: the evaluator result dict with its symbol
attached (`scan_market_async`). -/
structure Candidate where
  symbol : String
  direction : String
  entry_price : ℚ
  score : ℚ
  components : List (String × ℚ)
  deriving DecidableEq, Repr

/-- Insert a candidate into an already descending-sorted suffix, passing the
strictly greater scores and stopping before the first score ≤ its own, so
earlier-scanned candidates stay in front of equal scores. -/
def insertDesc (c : Candidate) : List Candidate → List Candidate
  | [] => [c]
  | x :: xs => if c.score < x.score then x :: insertDesc c xs else c :: x :: xs

/-- `candidates.sort(key = score, reverse = True)` — Python's stable
descending sort.  A stable sort producing descending scores is unique, so
this insertion sort is extensionally the same function as Timsort with this
key. -/
def pySortDesc : List Candidate → List Candidate
  | [] => []
  | c :: rest => insertDesc c (pySortDesc rest)

/-- The ranking step of `scanner.scan_market_async`: fewer than three
candidates skips the cycle; otherwise exactly the top three, mapped in rank
order through `plan_map` = premium, plus, free. -/
def rank_and_assign (candidates : List Candidate) : List (Candidate × String) :=
  if candidates.length < 3 then []
  else ((pySortDesc candidates).take 3).zip ["premium", "plus", "free"]

lemma mem_insertDesc (a c : Candidate) :
    ∀ l, a ∈ insertDesc c l ↔ a = c ∨ a ∈ l := by
  intro l
  induction l with
  | nil => simp [insertDesc]
  | cons x xs ih =>
    unfold insertDesc
    split
    · simp [ih]
      tauto
    · simp [List.mem_cons]

lemma insertDesc_pairwise (c : Candidate) :
    ∀ l, l.Pairwise (fun a b => b.score ≤ a.score) →
      (insertDesc c l).Pairwise (fun a b => b.score ≤ a.score) := by
  intro l
  induction l with
  | nil => simp [insertDesc]
  | cons x xs ih =>
    intro h
    rw [List.pairwise_cons] at h
    unfold insertDesc
    split
    · rename_i hlt
      rw [List.pairwise_cons]
      constructor
      · intro a ha
        rcases (mem_insertDesc a c xs).mp ha with rfl | hmem
        · exact le_of_lt hlt
        · exact h.1 a hmem
      · exact ih h.2
    · rename_i hge
      rw [List.pairwise_cons]
      refine ⟨?_, List.pairwise_cons.mpr h⟩
      intro a ha
      rcases List.mem_cons.mp ha with rfl | hmem
      · exact le_of_not_lt hge
      · exact le_trans (h.1 a hmem) (le_of_not_lt hge)

lemma insertDesc_perm (c : Candidate) :
    ∀ l, List.Perm (insertDesc c l) (c :: l) := by
  intro l
  induction l with
  | nil => simp [insertDesc]
  | cons x xs ih =>
    unfold insertDesc
    split
    · exact (List.Perm.cons x ih).trans (List.Perm.swap c x xs)
    · exact List.Perm.refl _

lemma pySortDesc_perm : ∀ l, List.Perm (pySortDesc l) l := by
  intro l
  induction l with
  | nil => simp [pySortDesc]
  | cons c rest ih =>
    unfold pySortDesc
    exact (insertDesc_perm c (pySortDesc rest)).trans (List.Perm.cons c ih)

lemma pySortDesc_pairwise :
    ∀ l, (pySortDesc l).Pairwise (fun a b => b.score ≤ a.score) := by
  intro l
  induction l with
  | nil => simp [pySortDesc]
  | cons c rest ih => exact insertDesc_pairwise c (pySortDesc rest) ih

lemma filter_insertDesc_ne (c : Candidate) (q : ℚ) (hne : ¬ c.score = q) :
    ∀ l, (insertDesc c l).filter (fun x => x.score == q)
      = l.filter (fun x => x.score == q) := by
  intro l
  induction l with
  | nil => simp [insertDesc, List.filter_cons, hne]
  | cons x xs ih =>
    unfold insertDesc
    split
    · simp only [List.filter_cons, ih]
    · simp [List.filter_cons, hne]

lemma filter_insertDesc_eq (c : Candidate) :
    ∀ l, l.Pairwise (fun a b => b.score ≤ a.score) →
      (insertDesc c l).filter (fun x => x.score == c.score)
        = c :: l.filter (fun x => x.score == c.score) := by
  intro l
  induction l with
  | nil => simp [insertDesc, List.filter]
  | cons x xs ih =>
    intro h
    rw [List.pairwise_cons] at h
    unfold insertDesc
    split
    · rename_i hlt
      have hxne : ¬ (x.score == c.score) = true := by
        simp only [beq_iff_eq]
        intro he
        exact absurd (he ▸ hlt) (lt_irrefl _)
      simp only [List.filter_cons, hxne, if_false]
      rw [ih h.2]
      simp [List.filter_cons, hxne]
    · simp [List.filter_cons]

lemma pySortDesc_stable :
    ∀ (l : List Candidate) (q : ℚ),
      (pySortDesc l).filter (fun x => x.score == q)
        = l.filter (fun x => x.score == q) := by
  intro l
  induction l with
  | nil => intro q; rfl
  | cons c rest ih =>
    intro q
    unfold pySortDesc
    by_cases hq : c.score = q
    · subst hq
      rw [filter_insertDesc_eq c (pySortDesc rest) (pySortDesc_pairwise rest),
        ih c.score]
      simp [List.filter_cons]
    · rw [filter_insertDesc_ne c q hq (pySortDesc rest), ih q]
      simp [List.filter_cons, hq]

/-- C8: each scan cycle sorts candidates descending by score with a stable
sort (a permutation, descending, ties keep scan order — witnessed by the
score-class filter equation), skips the cycle (emits nothing) when fewer
than three candidates exist, and otherwise takes exactly the top three with
tiers assigned in rank order premium, plus, free. -/
theorem C8_ranking :
    (∀ l : List Candidate, l.length < 3 → rank_and_assign l = []) ∧
    (∀ l : List Candidate, 3 ≤ l.length →
      (rank_and_assign l).map Prod.fst = (pySortDesc l).take 3 ∧
      (rank_and_assign l).map Prod.snd = ["premium", "plus", "free"]) ∧
    (∀ l : List Candidate, List.Perm (pySortDesc l) l) ∧
    (∀ l : List Candidate,
      (pySortDesc l).Pairwise (fun a b => b.score ≤ a.score)) ∧
    (∀ (l : List Candidate) (q : ℚ),
      (pySortDesc l).filter (fun x => x.score == q)
        = l.filter (fun x => x.score == q)) := by
  refine ⟨?_, ?_, pySortDesc_perm, pySortDesc_pairwise, pySortDesc_stable⟩
  · intro l h
    simp [rank_and_assign, h]
  · intro l h
    have h3 : ¬ l.length < 3 := not_lt.mpr h
    have hlen : (pySortDesc l).length = l.length :=
      (pySortDesc_perm l).length_eq
    have htake : ((pySortDesc l).take 3).length = 3 := by
      rw [List.length_take, hlen]
      omega
    constructor
    · simp only [rank_and_assign, h3, if_false]
      rw [List.map_fst_zip]
      rw [htake]
      simp
    · simp only [rank_and_assign, h3, if_false]
      rw [List.map_snd_zip]
      rw [htake]
      simp

/-- C8 witness: the ranking theorem at concrete cycles — one lone candidate
emits nothing; four candidates with a tied pair (90, 95, 90, 80 in scan
order) rank as 95, first 90, second 90 with tiers premium, plus, free, the
tie keeping scan order. -/
theorem C8_ranking_witness :
    rank_and_assign [⟨"A", "LONG", 1, 90, []⟩] = [] ∧
    (rank_and_assign [⟨"A", "LONG", 1, 90, []⟩, ⟨"B", "LONG", 1, 95, []⟩,
        ⟨"C", "SHORT", 1, 90, []⟩, ⟨"D", "LONG", 1, 80, []⟩]).map Prod.fst
      = (pySortDesc [⟨"A", "LONG", 1, 90, []⟩, ⟨"B", "LONG", 1, 95, []⟩,
        ⟨"C", "SHORT", 1, 90, []⟩, ⟨"D", "LONG", 1, 80, []⟩]).take 3 ∧
    (rank_and_assign [⟨"A", "LONG", 1, 90, []⟩, ⟨"B", "LONG", 1, 95, []⟩,
        ⟨"C", "SHORT", 1, 90, []⟩, ⟨"D", "LONG", 1, 80, []⟩]).map Prod.snd
      = ["premium", "plus", "free"] ∧
    rank_and_assign [⟨"A", "LONG", 1, 90, []⟩, ⟨"B", "LONG", 1, 95, []⟩,
        ⟨"C", "SHORT", 1, 90, []⟩, ⟨"D", "LONG", 1, 80, []⟩]
      = [(⟨"B", "LONG", 1, 95, []⟩, "premium"), (⟨"A", "LONG", 1, 90, []⟩, "plus"),
         (⟨"C", "SHORT", 1, 90, []⟩, "free")] :=
  ⟨C8_ranking.1 [⟨"A", "LONG", 1, 90, []⟩] (by decide),
   (C8_ranking.2.1 [⟨"A", "LONG", 1, 90, []⟩, ⟨"B", "LONG", 1, 95, []⟩,
      ⟨"C", "SHORT", 1, 90, []⟩, ⟨"D", "LONG", 1, 80, []⟩] (by decide)).1,
   (C8_ranking.2.1 [⟨"A", "LONG", 1, 90, []⟩, ⟨"B", "LONG", 1, 95, []⟩,
      ⟨"C", "SHORT", 1, 90, []⟩, ⟨"D", "LONG", 1, 80, []⟩] (by decide)).2,
   by decide⟩

/-- The last row of a candle dataframe after `strategy.add_indicators`: the
raw close/volume plus the indicator columns the evaluator reads (the `ta`
library that fills the indicator columns is external to the repository, so
indicator values are inputs here; the unused open/high/low and bb_width
columns are omitted). -/
structure IndicatorRow where
  close : ℚ
  volume : ℚ
  ema_200 : ℚ
  bb_high : ℚ
  bb_low : ℚ
  bb_mid : ℚ
  adx : ℚ
  vol_ma : ℚ
  deriving DecidableEq, Repr

/-- `strategy.market_has_strength`: ADX at least `ADX_MIN_TREND` = 25. -/
def market_has_strength (r : IndicatorRow) : Bool :=
  decide (25 ≤ r.adx)

/-- `strategy.trend_direction`: LONG above the 200-EMA, SHORT below, none on
equality. -/
def trend_direction (r : IndicatorRow) : Option String :=
  if r.ema_200 < r.close then some "LONG"
  else if r.close < r.ema_200 then some "SHORT"
  else none

/-- `strategy.breakout_confirmation`: volume at least `VOLUME_MULTIPLIER` =
1.5 times its moving average, and close beyond the direction's Bollinger
band. -/
def breakout_confirmation (r : IndicatorRow) (direction : String) : Bool :=
  if r.volume < r.vol_ma * (3/2) then false
  else if direction == "LONG" then decide (r.bb_high < r.close)
  else decide (r.close < r.bb_low)

/-- `strategy.pullback_confirmation`: close on the trend side of the band
middle and of the 200-EMA, with ADX at least 25. -/
def pullback_confirmation (r : IndicatorRow) (direction : String) : Bool :=
  if direction == "LONG" then
    decide (r.bb_mid ≤ r.close) && decide (r.ema_200 < r.close) &&
      decide (25 ≤ r.adx)
  else
    decide (r.close ≤ r.bb_mid) && decide (r.close < r.ema_200) &&
      decide (25 ≤ r.adx)

/-- Python `min(a, b)`. -/
def py_min (a b : ℚ) : ℚ := if a ≤ b then a else b

/-- Python `max(a, b)`. -/
def py_max (a b : ℚ) : ℚ := if a ≤ b then b else a

/-- The evaluator result dict of `strategy.mtf_strategy` (before the scanner
attaches the symbol). -/
structure StratResult where
  direction : String
  entry_price : ℚ
  score : ℚ
  components : List (String × ℚ)
  deriving DecidableEq, Repr

/-- `strategy.mtf_strategy` over the last indicator rows of the three
timeframes: hard 1H strength and trend filters (35 points), 15M strength
confirmation (25 points), 5M breakout (30) or pullback (25) setup, optional
ADX bonus (5), score clamped to [0, MAX_SCORE = 100] and rounded to two
decimals, entry price the 5M close rounded to four decimals. -/
def mtf_strategy (df_1h df_15m df_5m : IndicatorRow) : Option StratResult :=
  if ¬ market_has_strength df_1h then none
  else
    match trend_direction df_1h with
    | none => none
    | some direction =>
      if ¬ market_has_strength df_15m then none
      else
        let is_breakout := breakout_confirmation df_5m direction
        let is_pullback := pullback_confirmation df_5m direction
        if ¬ (is_breakout || is_pullback) then none
        else
          let score1 : ℚ := 35 + 25 + (if is_breakout then (30 : ℚ) else 25)
          let comp3 := if is_breakout then ("breakout_5m", (30 : ℚ))
            else ("pullback_5m", (25 : ℚ))
          let score2 := score1 + (if 35 ≤ df_5m.adx then (5 : ℚ) else 0)
          let comps := [("trend_1h", (35 : ℚ)), ("strength_15m", (25 : ℚ)), comp3]
            ++ (if 35 ≤ df_5m.adx then [("adx_bonus", (5 : ℚ))] else [])
          let score3 := py_max 0 (py_min score2 100)
          some { direction := direction, entry_price := round4 df_5m.close,
                 score := round2 score3, components := comps }

/-- C9: for every triple of evaluator inputs the strategy returns either
nothing or a result whose score lies in [0, 100]. -/
theorem C9_score_range (df_1h df_15m df_5m : IndicatorRow) :
    mtf_strategy df_1h df_15m df_5m = none ∨
    ∃ r, mtf_strategy df_1h df_15m df_5m = some r ∧ 0 ≤ r.score ∧
      r.score ≤ 100 := by
  unfold mtf_strategy
  dsimp only
  repeat' split
  all_goals
    first
      | exact Or.inl rfl
      | (refine Or.inr ⟨_, rfl, ?_, ?_⟩ <;> (dsimp only; decide))
